import Mathlib

/-!
Verification of the second-brain memory knowledge-graph engine against its
specification.  The frontend utility functions (`frontend/lib/utils.ts`, the
ingest page's entity-extraction preview) are embedded directly from the
TypeScript source; components of the backend engine whose implementation is
not part of the repository snapshot (relationship classifier, ranking/search
pipeline, ingestion pipeline) are modelled from the specification, as marked
in their doc comments.
-/

namespace SecondBrain

/-! ## Time decay (`calculateTimeDecay`, `frontend/lib/utils.ts` lines 33–38)

The JS function computes `ageDays` from the stored creation date and the
current clock, then returns `Math.exp(-ageDays / halfLife)`.  The date
arithmetic is abstracted into the real-valued `ageDays` argument; the body is
embedded verbatim, with `halfLife` defaulting to `90` as in the source. -/

noncomputable def calculateTimeDecay (ageDays : ℝ) (halfLife : ℝ := 90) : ℝ :=
  Real.exp (-ageDays / halfLife)

/-- Modelled from the spec: the ranking engine's pre-decay composite score
`score = semantic_weight × sim + (1 − semantic_weight) × keyword_match_score`
(§4.4); the backend ranking engine is not in the repository snapshot. -/
def preDecayScore (semanticWeight sim kwScore : ℝ) : ℝ :=
  semanticWeight * sim + (1 - semanticWeight) * kwScore

/-- Modelled from the spec: the ranking engine's final score
`final = score × exp(−age_days / half_life)` (§4.4), with the decay factor
taken from the repository's `calculateTimeDecay`; the backend ranking engine
is not in the repository snapshot. -/
noncomputable def rankingFinalScore (score ageDays halfLife : ℝ) : ℝ :=
  score * calculateTimeDecay ageDays halfLife

theorem exp_one_sq_bounds :
    (7.389056098:ℝ) < Real.exp 1 * Real.exp 1 ∧
      Real.exp 1 * Real.exp 1 < 7.3890561 := by
  have h1 : (2.7182818283:ℝ) < Real.exp 1 := Real.exp_one_gt_d9
  have h2 : Real.exp 1 < 2.7182818286 := Real.exp_one_lt_d9
  constructor <;> nlinarith [Real.exp_pos 1]

/-- C1: the final score is `score × exp(−age_days / half_life)` with
`half_life` defaulting to 90; `calculateTimeDecay` computes exactly
`exp(−age_days / half_life)`; and the 180-day-old memory with raw score 0.80
and half-life 90 receives final score `0.80 × exp(−2) ≈ 0.108`. -/
theorem ranking_final_score_spec :
    (∀ score ageDays halfLife : ℝ,
        rankingFinalScore score ageDays halfLife
          = score * Real.exp (-ageDays / halfLife)) ∧
    (∀ ageDays halfLife : ℝ,
        calculateTimeDecay ageDays halfLife = Real.exp (-ageDays / halfLife)) ∧
    (∀ ageDays : ℝ, calculateTimeDecay ageDays = Real.exp (-ageDays / 90)) ∧
    rankingFinalScore 0.8 180 90 = 0.8 * Real.exp (-2) ∧
    |rankingFinalScore 0.8 180 90 - 0.108| < 0.001 := by
  have hval : rankingFinalScore 0.8 180 90 = 0.8 * Real.exp (-2) := by
    unfold rankingFinalScore calculateTimeDecay
    norm_num
  refine ⟨fun _ _ _ => rfl, fun _ _ => rfl, fun _ => rfl, hval, ?_⟩
  rw [hval]
  have hmul : Real.exp (-2) * (Real.exp 1 * Real.exp 1) = 1 := by
    rw [← Real.exp_add, ← Real.exp_add]
    norm_num
  have hsq := exp_one_sq_bounds
  have hpos : (0:ℝ) < Real.exp (-2) := Real.exp_pos _
  rw [abs_lt]
  constructor <;> nlinarith [hsq.1, hsq.2, hmul, hpos]

/-- C2 (code bug): at `age_days = 90` with `half_life = 90` the code's decay
factor is `exp(−1) ≈ 0.368`, strictly below the documented `1/2`
("Score reduced to 50% after 90 days", dashboard page); generally the factor
at `k × half_life` is `exp(−1)^k`, not `(1/2)^k`. -/
theorem calculateTimeDecay_at_halfLife_below_half :
    calculateTimeDecay 90 90 = Real.exp (-1) ∧
    calculateTimeDecay 90 90 < 1 / 2 ∧
    (∀ k : ℕ, calculateTimeDecay (k * 90) 90 = Real.exp (-1) ^ k) := by
  have hval : calculateTimeDecay 90 90 = Real.exp (-1) := by
    unfold calculateTimeDecay
    norm_num
  refine ⟨hval, ?_, ?_⟩
  · rw [hval]
    have h1 : (2.7182818283:ℝ) < Real.exp 1 := Real.exp_one_gt_d9
    have hmul : Real.exp (-1) * Real.exp 1 = 1 := by
      rw [← Real.exp_add]
      norm_num
    nlinarith [Real.exp_pos (-1)]
  · intro k
    unfold calculateTimeDecay
    rw [← Real.exp_nat_mul]
    congr 1
    field_simp

/-- C6 fails as stated at pre-decay score 0: two memories with equal
similarity 0 and equal keyword score 0 receive equal final scores at ages 0
and 1, so the younger one does not score strictly higher. -/
theorem recency_not_strict_at_zero_score :
    preDecayScore 0.7 0 0 = 0 ∧
    ¬ rankingFinalScore (preDecayScore 0.7 0 0) 0 90
        > rankingFinalScore (preDecayScore 0.7 0 0) 1 90 := by
  have h0 : preDecayScore 0.7 0 0 = 0 := by
    unfold preDecayScore
    norm_num
  refine ⟨h0, ?_⟩
  rw [h0]
  unfold rankingFinalScore
  simp

/-- C6 (amended): with a positive half-life and a positive pre-decay score,
equal similarity and keyword score imply the memory with the smaller
`age_days` receives a strictly higher final score, and the time-decay factor
is strictly decreasing in `age_days`. -/
theorem ranking_monotone_recency (score a₁ a₂ halfLife : ℝ)
    (hh : 0 < halfLife) (hs : 0 < score) (hlt : a₁ < a₂) :
    rankingFinalScore score a₂ halfLife < rankingFinalScore score a₁ halfLife ∧
    calculateTimeDecay a₂ halfLife < calculateTimeDecay a₁ halfLife := by
  have hdecay : calculateTimeDecay a₂ halfLife < calculateTimeDecay a₁ halfLife := by
    unfold calculateTimeDecay
    apply Real.exp_lt_exp.2
    apply div_lt_div_of_pos_right _ hh
    linarith
  exact ⟨mul_lt_mul_of_pos_left hdecay hs, hdecay⟩

/-- Witness for the amended C6 at score 1, ages 0 < 1, half-life 90. -/
theorem ranking_monotone_recency_witness :
    (0:ℝ) < 90 ∧ (0:ℝ) < 1 ∧ (0:ℝ) < 1 ∧
    (rankingFinalScore 1 1 90 < rankingFinalScore 1 0 90 ∧
      calculateTimeDecay 1 90 < calculateTimeDecay 0 90) :=
  ⟨by norm_num, by norm_num, by norm_num,
    ranking_monotone_recency 1 0 1 90 (by norm_num) (by norm_num) (by norm_num)⟩

/-! ## Relationship classifier (modelled from the spec, §4.2)

The backend classifier implementation is not in the repository snapshot; the
repository documents its thresholds in `QUICKSTART.md` (update 0.70, extend
0.60, keyword overlap 0.30 with at least 2 shared keywords).  The decision
policy is embedded as a prioritized cascade, first match wins. -/

inductive RelKind where
  | updates
  | extends_
  | derives
  | similar
  deriving DecidableEq, Repr

/-- Per-candidate signals computed by the classifier (§4.2). -/
structure Signals where
  sim : ℚ
  kwOverlap : ℚ
  sharedKeywords : ℕ
  contradiction : Bool
  deriving DecidableEq, Repr

/-- Threshold configuration (§4.2); defaults as documented in
`QUICKSTART.md`. -/
structure ClassifierConfig where
  updateThreshold : ℚ := 7/10
  extendThreshold : ℚ := 6/10
  overlapThreshold : ℚ := 3/10
  similarFloor : ℚ := 3/10
  minimumKeywords : ℕ := 2
  deriving DecidableEq, Repr

/-- Modelled from the spec: the classifier's decision policy (§4.2), a
prioritized cascade evaluated in order with first match winning; returns the
emitted relationship kind together with its confidence, or `none`. -/
def classifyDecision (cfg : ClassifierConfig) (s : Signals) : Option (RelKind × ℚ) :=
  if cfg.updateThreshold ≤ s.sim ∧ s.contradiction = true then
    some (RelKind.updates, s.sim)
  else if cfg.extendThreshold ≤ s.sim then
    some (RelKind.extends_, s.sim)
  else if cfg.overlapThreshold ≤ s.kwOverlap ∧ cfg.minimumKeywords ≤ s.sharedKeywords then
    some (RelKind.derives, s.kwOverlap)
  else if cfg.similarFloor ≤ s.sim then
    some (RelKind.similar, s.sim)
  else
    none

/-- C3: with the documented defaults the cascade emits `Updates(conf = sim)`
iff `sim ≥ 0.70` and the contradiction signal holds; otherwise
`Extends(conf = sim)` iff `sim ≥ 0.60`; otherwise `Derives(conf = overlap)`
iff `overlap ≥ 0.30` and at least 2 keywords are shared; otherwise
`Similar(conf = sim)` iff `sim ≥ 0.30`; otherwise no edge. -/
theorem classifyDecision_spec (s : Signals) :
    (classifyDecision {} s = some (RelKind.updates, s.sim)
      ↔ 7/10 ≤ s.sim ∧ s.contradiction = true) ∧
    (classifyDecision {} s = some (RelKind.extends_, s.sim)
      ↔ ¬(7/10 ≤ s.sim ∧ s.contradiction = true) ∧ 6/10 ≤ s.sim) ∧
    (classifyDecision {} s = some (RelKind.derives, s.kwOverlap)
      ↔ ¬(7/10 ≤ s.sim ∧ s.contradiction = true) ∧ ¬(6/10 ≤ s.sim) ∧
        (3/10 ≤ s.kwOverlap ∧ 2 ≤ s.sharedKeywords)) ∧
    (classifyDecision {} s = some (RelKind.similar, s.sim)
      ↔ ¬(7/10 ≤ s.sim ∧ s.contradiction = true) ∧ ¬(6/10 ≤ s.sim) ∧
        ¬(3/10 ≤ s.kwOverlap ∧ 2 ≤ s.sharedKeywords) ∧ 3/10 ≤ s.sim) ∧
    (classifyDecision {} s = none
      ↔ ¬(7/10 ≤ s.sim ∧ s.contradiction = true) ∧ ¬(6/10 ≤ s.sim) ∧
        ¬(3/10 ≤ s.kwOverlap ∧ 2 ≤ s.sharedKeywords) ∧ ¬(3/10 ≤ s.sim)) := by
  unfold classifyDecision
  split_ifs with h1 h2 h3 h4 <;> simp_all

/-! ## Classification side effects on the graph (modelled from the spec, §4.2) -/

/-- A stored memory record, as touched by the classifier's side effects. -/
structure MemRec where
  id : ℕ
  isLatest : Bool
  deriving DecidableEq, Repr

/-- A relationship edge (§3). -/
structure Rel where
  fromId : ℕ
  toId : ℕ
  kind : RelKind
  confidence : ℚ
  deriving DecidableEq, Repr

/-- Memory and relationship records owned by the store. -/
structure GraphState where
  memories : List MemRec
  rels : List Rel
  deriving DecidableEq, Repr

/-- Modelled from the spec: processing one candidate during classification
(§4.2) — evaluate the decision cascade; when it emits a kind, record the edge
`from = new, to = candidate`, and for `Updates` additionally set the
candidate's `is_latest` to false. -/
def classifyCandidate (cfg : ClassifierConfig) (newId : ℕ) (st : GraphState)
    (cand : ℕ × Signals) : GraphState :=
  match classifyDecision cfg cand.2 with
  | none => st
  | some (kind, conf) =>
      { memories :=
          if kind = RelKind.updates then
            st.memories.map fun m =>
              if m.id = cand.1 then { m with isLatest := false } else m
          else st.memories
        rels := ⟨newId, cand.1, kind, conf⟩ :: st.rels }

/-- Modelled from the spec: `classify(new_memory)` evaluates every candidate
independently (§4.2). -/
def classify (cfg : ClassifierConfig) (newId : ℕ) (cands : List (ℕ × Signals))
    (st : GraphState) : GraphState :=
  cands.foldl (classifyCandidate cfg newId) st

/-- The `is_latest` invariant (§3, §8): every target of an `Updates` edge has
`is_latest = false`, and every memory with `is_latest = false` is the target
of some `Updates` edge. -/
def LatestInvariant (st : GraphState) : Prop :=
  (∀ r ∈ st.rels, r.kind = RelKind.updates →
      ∀ m ∈ st.memories, m.id = r.toId → m.isLatest = false) ∧
  (∀ m ∈ st.memories, m.isLatest = false →
      ∃ r ∈ st.rels, r.kind = RelKind.updates ∧ r.toId = m.id)

theorem classifyCandidate_latest (cfg : ClassifierConfig) (newId : ℕ)
    (st : GraphState) (cand : ℕ × Signals) (h : LatestInvariant st) :
    LatestInvariant (classifyCandidate cfg newId st cand) := by
  obtain ⟨h1, h2⟩ := h
  unfold classifyCandidate
  split
  case _ => exact ⟨h1, h2⟩
  case _ kind conf heq =>
    by_cases hk : kind = RelKind.updates
    · subst hk
      rw [if_pos rfl]
      constructor
      · intro r hr hkind m hm hid
        simp only [List.mem_map] at hm
        obtain ⟨m₀, hm₀, hmap⟩ := hm
        rcases List.mem_cons.1 hr with hr0 | hr0
        · subst hr0
          simp only at hid
          by_cases hc : m₀.id = cand.1
          · rw [← hmap]
            simp [hc]
          · rw [← hmap] at hid
            simp only [hc, if_neg hc] at hid
            exact absurd hid hc
        · by_cases hc : m₀.id = cand.1
          · rw [← hmap]
            simp [hc]
          · rw [← hmap] at hid ⊢
            simp only [if_neg hc] at hid ⊢
            exact h1 r hr0 hkind m₀ hm₀ hid
      · intro m hm hfalse
        simp only [List.mem_map] at hm
        obtain ⟨m₀, hm₀, hmap⟩ := hm
        by_cases hc : m₀.id = cand.1
        · refine ⟨⟨newId, cand.1, RelKind.updates, conf⟩, List.mem_cons_self _ _, rfl, ?_⟩
          rw [← hmap]
          simp [hc]
        · rw [← hmap] at hfalse ⊢
          simp only [if_neg hc] at hfalse ⊢
          obtain ⟨r, hr, hrk, hrid⟩ := h2 m₀ hm₀ hfalse
          exact ⟨r, List.mem_cons_of_mem _ hr, hrk, hrid⟩
    · rw [if_neg hk]
      constructor
      · intro r hr hkind m hm hid
        rcases List.mem_cons.1 hr with hr0 | hr0
        · subst hr0
          exact absurd hkind hk
        · exact h1 r hr0 hkind m hm hid
      · intro m hm hfalse
        obtain ⟨r, hr, hrk, hrid⟩ := h2 m hm hfalse
        exact ⟨r, List.mem_cons_of_mem _ hr, hrk, hrid⟩

/-- C4: if the `is_latest` invariant holds before classification, it holds
immediately after classification completes — every target of an `Updates`
edge has `is_latest = false`, and `is_latest` is true unless some `Updates`
edge points to the memory. -/
theorem classify_latest_invariant (cfg : ClassifierConfig) (newId : ℕ)
    (cands : List (ℕ × Signals)) (st : GraphState) (h : LatestInvariant st) :
    LatestInvariant (classify cfg newId cands st) := by
  unfold classify
  induction cands generalizing st with
  | nil => exact h
  | cons c cs ih =>
    exact ih _ (classifyCandidate_latest cfg newId st c h)

/-- Witness for C4: a one-memory store with no edges satisfies the invariant,
and so does the state after classifying a high-similarity contradicting
candidate against it. -/
theorem classify_latest_invariant_witness :
    LatestInvariant ⟨[⟨1, true⟩], []⟩ ∧
    LatestInvariant
      (classify {} 2 [(1, ⟨8/10, 1/2, 3, true⟩)] ⟨[⟨1, true⟩], []⟩) :=
  have h : LatestInvariant ⟨[⟨1, true⟩], []⟩ := by
    unfold LatestInvariant
    simp
  ⟨h, classify_latest_invariant {} 2 [(1, ⟨8/10, 1/2, 3, true⟩)] ⟨[⟨1, true⟩], []⟩ h⟩

/-! ## Ranked retrieval (modelled from the spec, §4.4)

The backend search implementation is not in the repository snapshot
(`frontend/lib/api.ts` only posts `query`, `limit`, `only_latest`, `keywords`
and `semantic_weight` to `/memories/search`).  The result-assembly stage is
embedded over candidates that arrive with their computed final scores. -/

/-- A memory as seen by the search result assembly. -/
structure SearchMem where
  id : ℕ
  isLatest : Bool
  createdAt : ℚ
  deriving DecidableEq, Repr

/-- A candidate paired with its computed final score. -/
structure ScoredMem where
  mem : SearchMem
  final : ℚ
  deriving DecidableEq, Repr

/-- Modelled from the spec: the result ordering of §4.4 — descending by
final score, ties broken by `created_at` descending (newer first). -/
def rankOrder (a b : ScoredMem) : Prop :=
  b.final < a.final ∨ (a.final = b.final ∧ b.mem.createdAt ≤ a.mem.createdAt)

instance rankOrder.decidable : DecidableRel rankOrder := fun a b =>
  inferInstanceAs
    (Decidable (b.final < a.final ∨ (a.final = b.final ∧ b.mem.createdAt ≤ a.mem.createdAt)))

instance rankOrder.total : IsTotal ScoredMem rankOrder where
  total a b := by
    unfold rankOrder
    rcases lt_trichotomy a.final b.final with h | h | h
    · exact Or.inr (Or.inl h)
    · rcases le_total b.mem.createdAt a.mem.createdAt with hc | hc
      · exact Or.inl (Or.inr ⟨h, hc⟩)
      · exact Or.inr (Or.inr ⟨h.symm, hc⟩)
    · exact Or.inl (Or.inl h)

instance rankOrder.trans : IsTrans ScoredMem rankOrder where
  trans a b c hab hbc := by
    unfold rankOrder at *
    rcases hab with h | ⟨he, hc⟩
    · rcases hbc with h' | ⟨he', hc'⟩
      · exact Or.inl (lt_trans h' h)
      · exact Or.inl (he' ▸ h)
    · rcases hbc with h' | ⟨he', hc'⟩
      · exact Or.inl (he ▸ h')
      · exact Or.inr ⟨he.trans he', le_trans hc' hc⟩

/-- Modelled from the spec: the final stage of `search` (§4.4) — apply the
`only_latest` filter, sort descending by final score with ties broken by
`created_at` descending, and truncate to `limit`. -/
def searchPipeline (cands : List ScoredMem) (onlyLatest : Bool) (limit : ℕ) :
    List ScoredMem :=
  let filtered := if onlyLatest then cands.filter (fun c => c.mem.isLatest) else cands
  (filtered.insertionSort rankOrder).take limit

/-- C5: a search with `only_latest = true` never returns a memory whose
`is_latest` flag is false. -/
theorem search_only_latest (cands : List ScoredMem) (limit : ℕ) :
    ∀ sm ∈ searchPipeline cands true limit, sm.mem.isLatest = true := by
  intro sm hsm
  unfold searchPipeline at hsm
  simp only [if_pos rfl] at hsm
  have h1 : sm ∈ (cands.filter fun c => c.mem.isLatest).insertionSort rankOrder :=
    List.take_subset _ _ hsm
  have h2 : sm ∈ cands.filter fun c => c.mem.isLatest :=
    (List.mem_insertionSort rankOrder).1 h1
  exact (List.mem_filter.1 h2).2

/-- Witness for C5 on a two-candidate store containing a superseded memory. -/
theorem search_only_latest_witness :
    (⟨⟨1, true, 0⟩, 1⟩ : ScoredMem)
        ∈ searchPipeline [⟨⟨1, true, 0⟩, 1⟩, ⟨⟨2, false, 0⟩, 2⟩] true 10 ∧
    (⟨⟨1, true, 0⟩, 1⟩ : ScoredMem).mem.isLatest = true :=
  ⟨by decide,
    search_only_latest [⟨⟨1, true, 0⟩, 1⟩, ⟨⟨2, false, 0⟩, 2⟩] 10 _ (by decide)⟩

/-- C7: the returned list is sorted in descending order of final score with
ties broken by `created_at` descending (newer first), and is truncated to at
most `limit` elements. -/
theorem search_sorted_truncated (cands : List ScoredMem) (onlyLatest : Bool)
    (limit : ℕ) :
    List.Sorted rankOrder (searchPipeline cands onlyLatest limit) ∧
    (searchPipeline cands onlyLatest limit).length ≤ limit := by
  constructor
  · unfold searchPipeline
    exact List.Pairwise.sublist (List.take_sublist _ _)
      (List.sorted_insertionSort rankOrder _)
  · unfold searchPipeline
    exact List.length_take_le _ _

/-! ## Ingestion pipeline (modelled from the spec, §4.1, §6)

The backend ingestion implementation is not in the repository snapshot; the
test log `API_TEST_RESULTS.md` documents 384-dimensional embeddings.  The
embedding provider and keyword extractor are external collaborators passed as
functions. -/

/-- A memory record as constructed by ingestion (§4.1). -/
structure IngestedMemory where
  ownerId : ℕ
  content : String
  embedding : List ℚ
  keywords : List String
  isLatest : Bool
  accessCount : ℕ
  deriving DecidableEq, Repr

/-- Modelled from the spec: ingestion of one chunk (§4.1) — request the
embedding and keyword extraction, construct a Memory with `is_latest = true`
and `access_count = 0`, and persist it. -/
def ingestChunk (embed : String → List ℚ) (extractKeywords : String → List String)
    (owner : ℕ) (chunk : String) (store : List IngestedMemory) :
    List IngestedMemory :=
  { ownerId := owner, content := chunk, embedding := embed chunk,
    keywords := extractKeywords chunk, isLatest := true, accessCount := 0 } :: store

/-- Modelled from the spec: a sequence of ingestions against the store. -/
def ingestAll (embed : String → List ℚ) (extractKeywords : String → List String)
    (jobs : List (ℕ × String)) (store : List IngestedMemory) :
    List IngestedMemory :=
  jobs.foldl (fun st job => ingestChunk embed extractKeywords job.1 job.2 st) store

/-- C8: when the embedding provider returns vectors of length `D` (384 in the
deployed configuration), every memory in the store after any sequence of
ingestions has an embedding of length `D`, provided the store satisfied the
invariant beforehand. -/
theorem embedding_dimension_invariant (D : ℕ) (embed : String → List ℚ)
    (extractKeywords : String → List String) (jobs : List (ℕ × String))
    (store : List IngestedMemory)
    (hD : ∀ t, (embed t).length = D)
    (hstore : ∀ m ∈ store, m.embedding.length = D) :
    ∀ m ∈ ingestAll embed extractKeywords jobs store, m.embedding.length = D := by
  unfold ingestAll
  induction jobs generalizing store with
  | nil => exact hstore
  | cons j js ih =>
    refine ih _ ?_
    intro m hm
    rcases List.mem_cons.1 hm with h | h
    · rw [h]
      exact hD j.2
    · exact hstore m h

/-- Witness for C8 with a constant 384-dimensional embedding provider and a
single ingestion into the empty store. -/
theorem embedding_dimension_invariant_witness :
    (∀ t : String, ((fun _ : String => List.replicate 384 (0:ℚ)) t).length = 384) ∧
    (∀ m ∈ ([] : List IngestedMemory), m.embedding.length = 384) ∧
    (∀ m ∈ ingestAll (fun _ => List.replicate 384 (0:ℚ)) (fun _ => [])
        [(1, "hello")] [], m.embedding.length = 384) :=
  ⟨fun _ => List.length_replicate 384 0, by simp,
    embedding_dimension_invariant 384 (fun _ => List.replicate 384 (0:ℚ))
      (fun _ => []) [(1, "hello")] [] (fun _ => List.length_replicate 384 0)
      (by simp)⟩

/-! ## `truncateText` (`frontend/lib/utils.ts` lines 63–66)

JS strings are modelled as lists of characters; `text.slice(0, maxLength)`
is `List.take maxLength` and `+ '...'` appends three dots. -/

def truncateText (text : List Char) (maxLength : ℕ := 100) : List Char :=
  if text.length ≤ maxLength then text
  else text.take maxLength ++ ['.', '.', '.']

/-- C9: `truncateText` returns the text unchanged when its length is at most
`maxLength`, otherwise the first `maxLength` characters followed by `"..."`;
the result's length never exceeds `maxLength + 3`. -/
theorem truncateText_spec (text : List Char) (maxLength : ℕ) :
    (text.length ≤ maxLength → truncateText text maxLength = text) ∧
    (maxLength < text.length →
      truncateText text maxLength = text.take maxLength ++ ['.', '.', '.']) ∧
    (truncateText text maxLength).length ≤ maxLength + 3 := by
  unfold truncateText
  by_cases h : text.length ≤ maxLength
  · refine ⟨fun _ => if_pos h, fun hlt => absurd h (by omega), ?_⟩
    rw [if_pos h]
    omega
  · refine ⟨fun hle => absurd hle h, fun _ => if_neg h, ?_⟩
    rw [if_neg h]
    simp only [List.length_append, List.length_take, List.length_cons,
      List.length_nil]
    omega

/-- Witness for C9 in both branches: a short text kept whole and a longer
text truncated to 2 characters plus the ellipsis. -/
theorem truncateText_spec_witness :
    (['h', 'i'] : List Char).length ≤ 5 ∧
    truncateText ['h', 'i'] 5 = ['h', 'i'] ∧
    2 < (['a', 'b', 'c'] : List Char).length ∧
    truncateText ['a', 'b', 'c'] 2 = ['a', 'b'] ++ ['.', '.', '.'] ∧
    (truncateText ['a', 'b', 'c'] 2).length ≤ 2 + 3 :=
  ⟨by decide, (truncateText_spec ['h', 'i'] 5).1 (by decide), by decide,
    by
      have := (truncateText_spec ['a', 'b', 'c'] 2).2.1 (by decide)
      simpa using this,
    (truncateText_spec ['a', 'b', 'c'] 2).2.2⟩

/-! ## Entity-extraction preview (`app/ingest/page.tsx`, `extractEntitiesPreview`)

The function runs four regexes over the input text and classifies the
capitalized matches.  The regex engine is the JS runtime's; its raw outputs
(`text.match(...)` per pattern) and the `text.includes` substring test are
the inputs of the embedded function, whose classification logic follows the
source line by line. -/

/-- Raw scan results over the input text: one `text.match` list per regex,
plus the `text.includes` substring test. -/
structure TextScan where
  emailMatches : List String
  urlMatches : List String
  phoneMatches : List String
  capitalizedMatches : List String
  includes : String → Bool

/-- The JS idiom `Array.from(new Set(xs))`: deduplicate keeping first
occurrences. -/
def jsSetDedup (xs : List String) : List String :=
  xs.foldl (fun acc x => if x ∈ acc then acc else acc ++ [x]) []

/-- The org-keyword list from the source. -/
def orgKeywords : List String :=
  ["Inc", "Corp", "Ltd", "LLC", "Company", "Organization", "University", "Bank"]

/-- The location-keyword list from the source. -/
def locationKeywords : List String :=
  ["San Francisco", "New York", "London", "Paris", "Tokyo", "Seattle",
    "California", "USA", "UK", "India"]

/-- The preview's output record. -/
structure EntityPreview where
  persons : List String
  organizations : List String
  locations : List String
  emails : List String
  urls : List String
  phones : List String
  deriving DecidableEq, Repr

/-- The function `extractEntitiesPreview` from the ingest page: emails and
urls are the
deduplicated matches; phones are truncated to 3; a capitalized match followed
in the text by an org keyword is an organization (first 5); capitalized
matches not in the organization list are persons (first 5); locations are
the fixed keywords contained in the text. -/
def extractEntitiesPreview (scan : TextScan) : EntityPreview :=
  let emails := jsSetDedup scan.emailMatches
  let urls := jsSetDedup scan.urlMatches
  let phones := (jsSetDedup scan.phoneMatches).take 3
  let capitalized := jsSetDedup scan.capitalizedMatches
  let organizations := (capitalized.filter fun word =>
    orgKeywords.any fun keyword => scan.includes (word ++ " " ++ keyword)).take 5
  let persons := (capitalized.filter fun word => !organizations.contains word).take 5
  let locations := locationKeywords.filter fun loc => scan.includes loc
  { persons := persons, organizations := organizations, locations := locations,
    emails := emails, urls := urls, phones := phones }

/-- C10: the preview returns at most 5 persons, at most 5 organizations and
at most 3 phone numbers, and no string appears in both the persons and the
organizations lists. -/
theorem extractEntitiesPreview_bounds (scan : TextScan) :
    (extractEntitiesPreview scan).persons.length ≤ 5 ∧
    (extractEntitiesPreview scan).organizations.length ≤ 5 ∧
    (extractEntitiesPreview scan).phones.length ≤ 3 ∧
    ∀ w ∈ (extractEntitiesPreview scan).persons,
      w ∉ (extractEntitiesPreview scan).organizations := by
  simp only [extractEntitiesPreview]
  refine ⟨List.length_take_le _ _, List.length_take_le _ _,
    List.length_take_le _ _, ?_⟩
  intro w hw
  have h1 := List.take_subset _ _ hw
  have h2 := (List.mem_filter.1 h1).2
  rw [Bool.not_eq_true'] at h2
  simpa using h2

/-- Witness for C10: a scan whose capitalized matches split into one
organization ("TechCorp", followed by "Inc" in the text) and one person. -/
theorem extractEntitiesPreview_bounds_witness :
    "Alice" ∈ (extractEntitiesPreview
        ⟨[], [], ["111", "222", "333", "444"], ["Alice", "TechCorp"],
          fun s => s == "TechCorp Inc"⟩).persons ∧
    "Alice" ∉ (extractEntitiesPreview
        ⟨[], [], ["111", "222", "333", "444"], ["Alice", "TechCorp"],
          fun s => s == "TechCorp Inc"⟩).organizations :=
  ⟨by decide,
    (extractEntitiesPreview_bounds
        ⟨[], [], ["111", "222", "333", "444"], ["Alice", "TechCorp"],
          fun s => s == "TechCorp Inc"⟩).2.2.2 "Alice" (by decide)⟩
